import Mathlib

/-!
Shallow embedding of the ggmpeg frame-interpolation driver (src/ggmpeg.py,
with src/better_ffmpeg.py as its near-duplicate predecessor), together with
theorems checking the specification's statements about the manifest builder,
the option mapper, the output-path resolver, the choice parser and the
interactive driver's output-name normalization.

Modelling decisions:
- paths and raw user input are lists of characters;
- Python floats are idealised as exact rationals;
- the filesystem glob is an oracle: make_video receives the matched file
  list directly, exactly as the body of the Python function does after the
  get_files call;
- os.path.abspath is the identity here, because make_video only applies it
  to paths that the file discoverer already made absolute.
-/

namespace Ggmpeg

/-- Character-list view of a string literal, used for paths and raw input. -/
def chars (s : String) : List Char := s.data

/-- The single-quote character (codepoint 39). -/
def quoteChar : Char := Char.ofNat 39

/-- The backslash character (codepoint 92). -/
def backslashChar : Char := Char.ofNat 92

/-- Boolean test that pat is a leading segment of s (Python str.startswith). -/
def startsWithL : List Char → List Char → Bool
  | _, [] => true
  | [], _ :: _ => false
  | a :: s, b :: p => a == b && startsWithL s p

/-- Python str.endswith, via reversal. -/
def endsWithL (s suf : List Char) : Bool := startsWithL s.reverse suf.reverse

/-- Python str.removesuffix: drop suf from the end when it is there and non-empty. -/
def removeSuffixL (s suf : List Char) : List Char :=
  if suf = [] then s
  else if endsWithL s suf then s.take (s.length - suf.length) else s

/-- Python substring membership (the `in` operator on str): some suffix of s starts with pat. -/
def containsL (s pat : List Char) : Bool :=
  match s with
  | [] => startsWithL [] pat
  | c :: t => startsWithL (c :: t) pat || containsL t pat

/-- Characters stripped by Python str.strip() (ASCII whitespace subset). -/
def isPySpace (c : Char) : Bool := c.isWhitespace

/-- Python str.strip(). -/
def stripL (l : List Char) : List Char :=
  ((l.dropWhile isPySpace).reverse.dropWhile isPySpace).reverse

/-- Python str.lower() on ASCII text. -/
def lowerL (l : List Char) : List Char := l.map Char.toLower

/-- Index just past the last slash of p: the split point used by posixpath. -/
def splitIdx (p : List Char) : ℕ :=
  p.length - (p.reverse.takeWhile (fun c => c != '/')).length

/-- posixpath.basename: everything after the last slash. -/
def basenameL (p : List Char) : List Char := p.drop (splitIdx p)

/-- Python str.rstrip with a slash argument. -/
def rstripSlashes (l : List Char) : List Char :=
  (l.reverse.dropWhile (fun c => c == '/')).reverse

/-- posixpath.dirname: up to the last slash, trailing slashes removed unless all slashes. -/
def dirnameL (p : List Char) : List Char :=
  let head := p.take (splitIdx p)
  if head ≠ [] ∧ head.any (fun c => c != '/') then rstripSlashes head else head

/-- posixpath.join for one extra component b on top of a. -/
def joinL (a b : List Char) : List Char :=
  if startsWithL b ['/'] then b
  else if a = [] ∨ endsWithL a ['/'] then a ++ b
  else a ++ '/' :: b

/-- The extension literal ".png". -/
def pngExt : List Char := chars ".png"

/-- The extension literal ".mp4". -/
def mp4Ext : List Char := chars ".mp4"

/-- Option keys: GeneralOpt.input_fps together with the IntrpOpt filter keys. -/
inductive OptKey
  | input_fps | fps | mi_mode | mc_mode | vsbmc | me | mb_size
deriving DecidableEq, Repr

/-- Python enum .value strings of the option keys. -/
def OptKey.value : OptKey → String
  | .input_fps => "input_fps"
  | .fps => "fps"
  | .mi_mode => "mi_mode"
  | .mc_mode => "mc_mode"
  | .vsbmc => "vsbmc"
  | .me => "me"
  | .mb_size => "mb_size"

/-- Values held in the options dict: strings, ints, or floats (as rationals). -/
inductive OptValue
  | str (s : String) | int (n : ℤ) | rat (q : ℚ)
deriving DecidableEq, Repr

/-- Python dict lookup on an insertion-ordered association list with unique keys. -/
def dictGet (options : List (OptKey × OptValue)) (k : OptKey) : Option OptValue :=
  (options.find? (fun kv => kv.1 == k)).map (fun kv => kv.2)

/-- Numeric view of an option value, at the one place make_video divides by it.
On a string value the Python line would raise TypeError; the interactive driver
always stores a parsed number there, so that case is unreachable and mapped to 0. -/
def getNum (options : List (OptKey × OptValue)) (k : OptKey) : ℚ :=
  match dictGet options k with
  | some (OptValue.int n) => (n : ℚ)
  | some (OptValue.rat q) => q
  | _ => 0

/-- IntrpOpt.MODE_OPTS_BLEND: the enum-member value strings active in blend mode. -/
def MODE_OPTS_BLEND : List String := ["fps", "mi_mode"]

/-- IntrpOpt.MODE_OPTS_MCI: the enum-member value strings active in mci mode. -/
def MODE_OPTS_MCI : List String :=
  ["fps", "mi_mode", "mc_mode", "vsbmc", "me", "mb_size"]

/-- Filter keyword arguments built by make_video (ggmpeg.py lines 151-167):
iterate the options dict in insertion order and keep the keys whose value
string belongs to the active mode's list. -/
def options_kwargs (options : List (OptKey × OptValue)) : List (String × OptValue) :=
  if dictGet options OptKey.mi_mode = some (OptValue.str "blend") then
    (options.filter (fun kv => MODE_OPTS_BLEND.contains kv.1.value)).map
      (fun kv => (kv.1.value, kv.2))
  else if dictGet options OptKey.mi_mode = some (OptValue.str "mci") then
    (options.filter (fun kv => MODE_OPTS_MCI.contains kv.1.value)).map
      (fun kv => (kv.1.value, kv.2))
  else []

/-- Python round(x, 8) on the idealised rational value of the float x. -/
def round8 (q : ℚ) : ℚ := ((round (q * 100000000) : ℤ) : ℚ) / 100000000

/-- frame_duration = round(1/options[GeneralOpt.input_fps], 8) (ggmpeg.py line 97). -/
def frame_duration (fps : ℚ) : ℚ := round8 (1 / fps)

/-- fullpath.replace of a quote by backslash-quote (ggmpeg.py line 112). -/
def escapeQuotes (p : List Char) : List Char :=
  p.foldr (fun c acc => if c == quoteChar then backslashChar :: quoteChar :: acc else c :: acc) []

/-- One line of the concat manifest. The numeric fields carry the values the
Python code formats into text, so the byte-level float formatting is abstracted
while the line structure and payloads are kept. -/
inductive ManifestLine
  | header (totalFrames : ℕ) (totalDuration : ℚ)
  | blank
  | frameComment (idx : ℕ)
  | fileLine (path : List Char)
  | durationLine (d : ℚ)
deriving DecidableEq, Repr

/-- Main per-frame loop of the manifest writer (ggmpeg.py lines 111-115),
with i the running enumerate counter. -/
def manifestBody (inputs : List (List Char)) (d : ℚ) (i : ℕ) : List ManifestLine :=
  match inputs with
  | [] => []
  | p :: rest =>
      ManifestLine.frameComment (i + 1)
        :: ManifestLine.fileLine (escapeQuotes p)
        :: ManifestLine.durationLine d
        :: manifestBody rest d (i + 1)

/-- Repeated final-frame loop (ggmpeg.py lines 118-122): cnt extra records all
pointing at lastPath, written without the quote escaping of the main loop,
with j the running loop counter and n the count of original inputs. -/
def repeatLines (lastPath : List Char) (d : ℚ) (n : ℕ) : ℕ → ℕ → List ManifestLine
  | _, 0 => []
  | j, cnt + 1 =>
      ManifestLine.frameComment (n + j + 1)
        :: ManifestLine.fileLine lastPath
        :: ManifestLine.durationLine d
        :: repeatLines lastPath d n (j + 1) cnt

/-- Full concat manifest written by make_video (ggmpeg.py lines 108-122). -/
def manifestLines (inputs : List (List Char)) (d : ℚ) (final_frame_dur : ℕ) :
    List ManifestLine :=
  ManifestLine.header inputs.length ((inputs.length : ℚ) * d)
    :: ManifestLine.blank
    :: (manifestBody inputs d 0
        ++ if 1 < final_frame_dur then
             repeatLines (inputs.getLastD []) d inputs.length 0 (final_frame_dur - 1)
           else [])

/-- Payload of a file line, none on other lines. -/
def linePath? : ManifestLine → Option (List Char)
  | ManifestLine.fileLine p => some p
  | _ => none

/-- Paths on the manifest's file lines, in order: one per frame record. -/
def fileLines (m : List ManifestLine) : List (List Char) := m.filterMap linePath?

/-- Payload of a duration line, none on other lines. -/
def lineDur? : ManifestLine → Option ℚ
  | ManifestLine.durationLine d => some d
  | _ => none

/-- Durations on the manifest's duration lines, in order: one per frame record. -/
def durationLines (m : List ManifestLine) : List ℚ := m.filterMap lineDur?

/-- Frame count and total duration stated on the manifest's leading header line. -/
def headerInfo : List ManifestLine → Option (ℕ × ℚ)
  | ManifestLine.header n q :: _ => some (n, q)
  | _ => none

/-- MAX_PATH from ctypes.wintypes, the platform path-length constant. -/
def MAX_PATH : ℕ := 260

/-- os.path.abspath, modelled as the identity: make_video only applies it to
paths already made absolute (and slash-normalised) by get_files. -/
def abspathL (p : List Char) : List Char := p

/-- Errors make_video can diagnose before invoking the encoder: zero glob
matches, or an over-long output path (directory-only and full-path variants,
printed at ggmpeg.py lines 105, 132 and 142 respectively). -/
inductive Err
  | NoInputFiles | PathTooLongDir | PathTooLongFile
deriving DecidableEq, Repr

/-- Output-path resolution of make_video (ggmpeg.py lines 124-143): derive a
default from the first input when no filename is given, with truncation of an
over-long basename; join an explicit filename onto the first input's
directory, failing hard when over-long. -/
def resolve_output (output_filename first : List Char) : Except Err (List Char) :=
  if output_filename = [] then
    let ofp := removeSuffixL (abspathL first) pngExt ++ mp4Ext
    if ofp.length > MAX_PATH then
      let path_dir := dirnameL first
      let used_chars := path_dir.length + 2 + 4
      if used_chars ≥ MAX_PATH then Except.error Err.PathTooLongDir
      else
        let path_base := removeSuffixL (basenameL first) pngExt
        Except.ok (joinL path_dir (path_base.take (MAX_PATH - used_chars) ++ mp4Ext))
    else Except.ok ofp
  else
    let ofp := joinL (dirnameL first) output_filename
    if ofp.length > MAX_PATH then Except.error Err.PathTooLongFile
    else Except.ok ofp

/-- The encoder invocation assembled by make_video: output target and the
minterpolate filter keyword arguments. The fixed arguments (concat input,
mp4 format, libx264, crf 15, overwrite) are constants of the call site. -/
structure EncoderCall where
  outputPath : List Char
  filterArgs : List (String × OptValue)
deriving DecidableEq, Repr

/-- Observable outcome of one make_video run: the manifest written (none when
the run aborts before writing it), the diagnosed error if any, and the encoder
invocation if one happens. -/
structure RunResult where
  manifest : Option (List ManifestLine)
  error : Option Err
  encoder : Option EncoderCall
deriving DecidableEq, Repr

/-- make_video (ggmpeg.py lines 75-191) on the file list produced by the glob:
abort on zero matches, write the concat manifest, resolve the output path
(aborting on an over-long path, after the manifest file is already written),
then invoke the encoder with the mode-projected filter arguments. The
text-overlay step (lines 169-176) only adds drawtext arguments to the encoder
call; the driver always leaves overlay_text empty, and it is not modelled. -/
def make_video (inputs : List (List Char)) (output_filename : List Char)
    (options : List (OptKey × OptValue)) (final_frame_dur : ℕ) : RunResult :=
  let d := frame_duration (getNum options OptKey.input_fps)
  match inputs with
  | [] => ⟨none, some Err.NoInputFiles, none⟩
  | first :: rest =>
      let m := manifestLines (first :: rest) d final_frame_dur
      match resolve_output output_filename first with
      | Except.error e => ⟨some m, some e, none⟩
      | Except.ok outPath => ⟨some m, none, some ⟨outPath, options_kwargs options⟩⟩

/-- Decimal digit run as accepted inside a Python int literal: non-empty,
digits with single interior underscores. -/
def noDoubleUnderscore : List Char → Bool
  | '_' :: '_' :: _ => false
  | _ :: t => noDoubleUnderscore t
  | [] => true

/-- Validity of the digit part of a Python int literal. -/
def pyDigitsValid (l : List Char) : Bool :=
  !l.isEmpty && l.all (fun c => c.isDigit || c == '_')
    && (l.headD '0').isDigit && (l.getLastD '0').isDigit && noDoubleUnderscore l

/-- Numeric value of a digit run, skipping underscores. -/
def digitsToNat (l : List Char) : ℕ :=
  l.foldl (fun acc c => if c == '_' then acc else acc * 10 + (c.toNat - 48)) 0

/-- Python int() on a string: strip whitespace, optional sign, decimal digits
with single interior underscores; none models the ValueError path. -/
def parsePyInt (s : String) : Option ℤ :=
  match stripL s.data with
  | '+' :: rest => if pyDigitsValid rest then some (digitsToNat rest : ℤ) else none
  | '-' :: rest => if pyDigitsValid rest then some (-(digitsToNat rest : ℤ)) else none
  | rest => if pyDigitsValid rest then some (digitsToNat rest : ℤ) else none

/-- Python float() on plain decimal literals: strip whitespace, optional sign,
digits with an optional fractional part. Exponent, infinity/nan and underscore
forms are omitted; no statement below depends on the float branch. -/
def parsePyFloatCore (l : List Char) : Option ℚ :=
  let ip := l.takeWhile (fun c => c != '.')
  match l.drop ip.length with
  | [] =>
      if ip ≠ [] ∧ ip.all Char.isDigit then some ((digitsToNat ip : ℚ)) else none
  | _ :: fp =>
      if fp.all Char.isDigit ∧ ip.all Char.isDigit ∧ (ip ≠ [] ∨ fp ≠ []) then
        some ((digitsToNat ip : ℚ) + (digitsToNat fp : ℚ) / ((10 : ℚ) ^ fp.length))
      else none

/-- Python float() on a string, sign handling on top of the core form. -/
def parsePyFloat (s : String) : Option ℚ :=
  match stripL s.data with
  | '+' :: rest => parsePyFloatCore rest
  | '-' :: rest => (parsePyFloatCore rest).map Neg.neg
  | rest => parsePyFloatCore rest

/-- The three option shapes accepted by parse_choice: an inclusive integer
range, an inclusive float range, or an enumerated string set. -/
inductive Shape
  | intRange (lo hi : ℤ)
  | floatRange (lo hi : ℚ)
  | strSet (opts : List String)
deriving DecidableEq, Repr

/-- parse_choice (ggmpeg.py lines 194-237): none models a Python None choice;
the Bool result records whether a fallback diagnostic was printed. -/
def parse_choice (choice : Option String) (options : Shape) (default : OptValue) :
    OptValue × Bool :=
  match choice with
  | none => (default, false)
  | some s =>
    if s = "" then (default, false)
    else
      match options with
      | Shape.intRange lo hi =>
          match parsePyInt s with
          | none => (default, true)
          | some n =>
              if lo ≤ n ∧ n ≤ hi then (OptValue.int n, false) else (default, true)
      | Shape.floatRange lo hi =>
          match parsePyFloat s with
          | none => (default, true)
          | some q =>
              if lo ≤ q ∧ q ≤ hi then (OptValue.rat q, false) else (default, true)
      | Shape.strSet opts =>
          match opts.find? (fun opt => String.mk (lowerL (stripL s.data)) == opt) with
          | some opt => (OptValue.str opt, false)
          | none => (default, true)

/-- Output-filename normalization at the interactive prompt (ggmpeg.py lines
276-279): strip the entry, and append ".mp4" to a non-empty name whose
lowercase form does not already contain ".mp4". -/
def normalize_output_filename (c_in : List Char) : List Char :=
  let s := stripL c_in
  if s ≠ [] ∧ containsL (lowerL s) mp4Ext = false then s ++ mp4Ext else s

/-! Helper lemmas about the list-level string operations. -/

lemma startsWithL_iff (p s : List Char) : startsWithL s p = true ↔ ∃ t, s = p ++ t := by
  induction p generalizing s with
  | nil => simp [startsWithL]
  | cons b p ih =>
      cases s with
      | nil => simp [startsWithL]
      | cons a s =>
          simp only [startsWithL, Bool.and_eq_true, beq_iff_eq, ih]
          constructor
          · rintro ⟨rfl, t, rfl⟩
            exact ⟨t, rfl⟩
          · rintro ⟨t, h⟩
            injection h with h1 h2
            exact ⟨h1, t, h2⟩

lemma endsWithL_iff (s suf : List Char) : endsWithL s suf = true ↔ ∃ t, s = t ++ suf := by
  rw [endsWithL, startsWithL_iff]
  constructor
  · rintro ⟨t, ht⟩
    refine ⟨t.reverse, ?_⟩
    have h := congrArg List.reverse ht
    simpa using h
  · rintro ⟨t, rfl⟩
    exact ⟨t.reverse, by simp⟩

lemma removeSuffixL_append (t suf : List Char) (hsuf : suf ≠ []) :
    removeSuffixL (t ++ suf) suf = t := by
  rw [removeSuffixL, if_neg hsuf, if_pos ((endsWithL_iff _ _).2 ⟨t, rfl⟩)]
  simp [List.length_append, List.take_left]

lemma removeSuffixL_of_not_endsWith (s suf : List Char) (h : endsWithL s suf = false) :
    removeSuffixL s suf = s := by
  rw [removeSuffixL]
  split_ifs with h1 h2
  · rfl
  · exact absurd h2 (by simp [h])
  · rfl

lemma takeWhile_append_all (q : Char → Bool) (l1 l2 : List Char)
    (h : ∀ x ∈ l1, q x = true) :
    (l1 ++ l2).takeWhile q = l1 ++ l2.takeWhile q := by
  induction l1 with
  | nil => simp
  | cons a t ih =>
      have ha := h a (List.mem_cons_self a t)
      rw [List.cons_append, List.takeWhile_cons q a (t ++ l2), if_pos ha,
        ih (fun x hx => h x (List.mem_cons_of_mem a hx)), List.cons_append]

lemma splitIdx_append_no_slash (p s : List Char) (hs : ∀ x ∈ s, x ≠ '/') :
    splitIdx (p ++ s) = splitIdx p := by
  rw [splitIdx, splitIdx, List.reverse_append,
    takeWhile_append_all _ s.reverse p.reverse ?hall]
  case hall =>
    intro x hx
    have hxs : x ∈ s := List.mem_reverse.1 hx
    simp [hs x hxs]
  have hle : ((p.reverse.takeWhile (fun c => c != '/'))).length ≤ p.length := by
    have h1 : ((p.reverse.takeWhile (fun c => c != '/'))).length ≤ p.reverse.length :=
      (List.takeWhile_sublist _).length_le
    simpa using h1
  simp only [List.length_append, List.length_reverse]
  omega

lemma dirnameL_append_no_slash (p s : List Char) (hs : ∀ x ∈ s, x ≠ '/') :
    dirnameL (p ++ s) = dirnameL p := by
  have hsp := splitIdx_append_no_slash p s hs
  have hle : splitIdx p ≤ p.length := by
    rw [splitIdx]
    omega
  rw [dirnameL, dirnameL, hsp, List.take_append_of_le_length hle]

lemma joinL_length_le (a b : List Char) :
    (joinL a b).length ≤ a.length + 1 + b.length := by
  rw [joinL]
  split_ifs
  · omega
  · simp only [List.length_append]
    omega
  · simp only [List.length_append, List.length_cons]
    omega

lemma resolve_output_ne_noInputFiles (fn first : List Char) :
    resolve_output fn first ≠ Except.error Err.NoInputFiles := by
  unfold resolve_output
  intro h
  simp only [ite_eq_iff] at h
  simp_all

/-! Helper lemmas about the manifest builder. -/

lemma filterMap_path_manifestBody (inputs : List (List Char)) (d : ℚ) :
    ∀ i, List.filterMap linePath? (manifestBody inputs d i) = inputs.map escapeQuotes := by
  induction inputs with
  | nil => intro i; rfl
  | cons p rest ih =>
      intro i
      simp [manifestBody, List.filterMap_cons, linePath?, ih (i + 1)]

lemma filterMap_dur_manifestBody (inputs : List (List Char)) (d : ℚ) :
    ∀ i, List.filterMap lineDur? (manifestBody inputs d i)
      = List.replicate inputs.length d := by
  induction inputs with
  | nil => intro i; rfl
  | cons p rest ih =>
      intro i
      simp [manifestBody, List.filterMap_cons, lineDur?, ih (i + 1), List.replicate_succ]

lemma filterMap_path_repeatLines (p : List Char) (d : ℚ) (n : ℕ) :
    ∀ j cnt, List.filterMap linePath? (repeatLines p d n j cnt) = List.replicate cnt p := by
  intro j cnt
  induction cnt generalizing j with
  | zero => rfl
  | succ k ih =>
      simp [repeatLines, List.filterMap_cons, linePath?, ih (j + 1), List.replicate_succ]

lemma filterMap_dur_repeatLines (p : List Char) (d : ℚ) (n : ℕ) :
    ∀ j cnt, List.filterMap lineDur? (repeatLines p d n j cnt) = List.replicate cnt d := by
  intro j cnt
  induction cnt generalizing j with
  | zero => rfl
  | succ k ih =>
      simp [repeatLines, List.filterMap_cons, lineDur?, ih (j + 1), List.replicate_succ]

lemma fileLines_manifestLines (inputs : List (List Char)) (d : ℚ) (r : ℕ) (hr : 1 ≤ r) :
    fileLines (manifestLines inputs d r)
      = inputs.map escapeQuotes ++ List.replicate (r - 1) (inputs.getLastD []) := by
  rcases Nat.lt_or_ge 1 r with h | h
  · simp [manifestLines, fileLines, List.filterMap_cons, linePath?, List.filterMap_append,
      if_pos h, filterMap_path_manifestBody, filterMap_path_repeatLines]
  · have hr1 : r = 1 := le_antisymm h hr
    subst hr1
    simp [manifestLines, fileLines, List.filterMap_cons, linePath?, List.filterMap_append,
      filterMap_path_manifestBody]

lemma durationLines_manifestLines (inputs : List (List Char)) (d : ℚ) (r : ℕ)
    (hr : 1 ≤ r) :
    durationLines (manifestLines inputs d r)
      = List.replicate (inputs.length + (r - 1)) d := by
  rcases Nat.lt_or_ge 1 r with h | h
  · rw [List.replicate_add]
    simp [manifestLines, durationLines, List.filterMap_cons, lineDur?, List.filterMap_append,
      if_pos h, filterMap_dur_manifestBody, filterMap_dur_repeatLines]
  · have hr1 : r = 1 := le_antisymm h hr
    subst hr1
    simp [manifestLines, durationLines, List.filterMap_cons, lineDur?, List.filterMap_append,
      filterMap_dur_manifestBody]

lemma getLastD_eq_getLast (inputs : List (List Char)) (hne : inputs ≠ []) :
    inputs.getLastD [] = inputs.getLast hne := by
  rw [List.getLastD_eq_getLast?, List.getLast?_eq_getLast _ hne]
  rfl

/-- C1: for N ≥ 1 input files and any repeat count r ≥ 1, the manifest holds
exactly N + r - 1 frame records in input order: the first N file lines carry
the input paths in order (in their quote-escaped manifest form), the final
r - 1 file lines all carry the last input file, and every record carries the
same per-frame duration d. -/
theorem c1_manifest_records (inputs : List (List Char)) (d : ℚ) (r : ℕ)
    (hne : inputs ≠ []) (hr : 1 ≤ r) :
    fileLines (manifestLines inputs d r)
        = inputs.map escapeQuotes ++ List.replicate (r - 1) (inputs.getLast hne)
      ∧ durationLines (manifestLines inputs d r)
        = List.replicate (inputs.length + (r - 1)) d
      ∧ (fileLines (manifestLines inputs d r)).length = inputs.length + (r - 1) := by
  have hlast := getLastD_eq_getLast inputs hne
  have hfl := fileLines_manifestLines inputs d r hr
  rw [hlast] at hfl
  refine ⟨hfl, durationLines_manifestLines inputs d r hr, ?_⟩
  simp [hfl]

/-- C1 witness: two inputs, repeat count 3 gives 2 + 3 - 1 = 4 records. -/
theorem c1_manifest_records_witness :
    fileLines (manifestLines [chars "a", chars "b"] 1 3)
        = [chars "a", chars "b"].map escapeQuotes
          ++ List.replicate (3 - 1) ([chars "a", chars "b"].getLast (by decide))
      ∧ durationLines (manifestLines [chars "a", chars "b"] 1 3)
        = List.replicate ([chars "a", chars "b"].length + (3 - 1)) 1
      ∧ (fileLines (manifestLines [chars "a", chars "b"] 1 3)).length
        = [chars "a", chars "b"].length + (3 - 1) :=
  c1_manifest_records [chars "a", chars "b"] 1 3 (by decide) (by decide)

/-- C7: for fps f > 0, every duration line of the manifest carries
round(1/f, 8 decimal places): the duration lines are exactly N + r - 1 copies
of round8 (1/f). -/
theorem c7_duration_is_round8 (f : ℚ) (inputs : List (List Char)) (r : ℕ)
    (_hf : 0 < f) (hr : 1 ≤ r) :
    durationLines (manifestLines inputs (frame_duration f) r)
      = List.replicate (inputs.length + (r - 1)) (round8 (1 / f)) :=
  durationLines_manifestLines inputs (frame_duration f) r hr

/-- C7 witness: one input at 15 fps, duration 6666667/100000000. -/
theorem c7_duration_is_round8_witness :
    durationLines (manifestLines [chars "a"] (frame_duration 15) 1)
      = List.replicate ([chars "a"].length + (1 - 1)) (round8 (1 / 15)) :=
  c7_duration_is_round8 15 [chars "a"] 1 (by norm_num) (by decide)

/-- C8 counterexample: with one input file and repeat count 2 the manifest has
2 frame records but its header still states 1 frame and duration 1 * d, so the
header does not state the record count nor record-count * duration. -/
theorem c8_header_counterexample :
    (fileLines (manifestLines [chars "a"] 1 2)).length = 2
      ∧ headerInfo (manifestLines [chars "a"] 1 2)
          ≠ some ((fileLines (manifestLines [chars "a"] 1 2)).length,
              ((fileLines (manifestLines [chars "a"] 1 2)).length : ℚ) * 1) := by
  decide

/-- C8 amended: the header states the count N of matched input files and the
duration N * d, while the manifest holds N + r - 1 records; the two counts
coincide exactly when the repeat count r is 1. -/
theorem c8_header_counts_inputs (inputs : List (List Char)) (d : ℚ) (r : ℕ)
    (_hne : inputs ≠ []) (hr : 1 ≤ r) :
    headerInfo (manifestLines inputs d r)
        = some (inputs.length, (inputs.length : ℚ) * d)
      ∧ (fileLines (manifestLines inputs d r)).length = inputs.length + (r - 1) := by
  refine ⟨rfl, ?_⟩
  simp [fileLines_manifestLines inputs d r hr]

/-- C8 amended witness: one input, repeat 2: header says 1 frame, records are 2. -/
theorem c8_header_counts_inputs_witness :
    headerInfo (manifestLines [chars "a"] 1 2)
        = some ([chars "a"].length, ([chars "a"].length : ℚ) * 1)
      ∧ (fileLines (manifestLines [chars "a"] 1 2)).length
        = [chars "a"].length + (2 - 1) :=
  c8_header_counts_inputs [chars "a"] 1 2 (by decide) (by decide)

/-- C6: the repository's repeated-final-frame loop writes the last input path
on its file lines without the quote escaping applied in the main loop: with
the single input path a-quote and repeat count 2, the manifest's two file
lines are the escaped a-backslash-quote followed by the raw a-quote, which is
not the escaped form of any quote rewrite of that path. -/
theorem c6_repeated_frame_unescaped :
    fileLines (manifestLines [['a', quoteChar]] 1 2)
        = [['a', backslashChar, quoteChar], ['a', quoteChar]]
      ∧ escapeQuotes ['a', quoteChar] = ['a', backslashChar, quoteChar]
      ∧ ['a', quoteChar] ≠ escapeQuotes ['a', quoteChar] := by
  decide

/-- C9: with zero glob matches make_video stops with NoInputFiles, writes no
manifest and never builds an encoder call; with at least one match the run
proceeds: the manifest is written and NoInputFiles is not raised. -/
theorem c9_no_input_files_aborts (first : List Char) (rest : List (List Char))
    (fn : List Char) (opts : List (OptKey × OptValue)) (r : ℕ) :
    make_video [] fn opts r = ⟨none, some Err.NoInputFiles, none⟩
      ∧ (make_video (first :: rest) fn opts r).manifest
        = some (manifestLines (first :: rest)
            (frame_duration (getNum opts OptKey.input_fps)) r)
      ∧ (make_video (first :: rest) fn opts r).error ≠ some Err.NoInputFiles := by
  refine ⟨rfl, ?_, ?_⟩
  · unfold make_video
    cases h : resolve_output fn first <;> simp [h]
  · unfold make_video
    cases h : resolve_output fn first with
    | error e =>
        simp only [h]
        intro hc
        have he : e = Err.NoInputFiles := by
          simpa using hc
        exact resolve_output_ne_noInputFiles fn first (he ▸ h)
    | ok outPath => simp [h]

/-- Restriction key set of blend mode, as the spec states it. -/
def blendKeys : List OptKey := [OptKey.fps, OptKey.mi_mode]

/-- Restriction key set of mci mode, as the spec states it. -/
def mciKeys : List OptKey :=
  [OptKey.fps, OptKey.mi_mode, OptKey.mc_mode, OptKey.vsbmc, OptKey.me, OptKey.mb_size]

lemma contains_blend_value (k : OptKey) :
    MODE_OPTS_BLEND.contains k.value = blendKeys.contains k := by
  cases k <;> decide

lemma contains_mci_value (k : OptKey) :
    MODE_OPTS_MCI.contains k.value = mciKeys.contains k := by
  cases k <;> decide

lemma value_ne_input_fps (k : OptKey) (hk : k ≠ OptKey.input_fps) :
    k.value ≠ "input_fps" := by
  cases k
  · exact absurd rfl hk
  all_goals decide

/-- C2: in blend mode the filter-argument mapping is exactly the option table
restricted to the keys fps and mi_mode; in mci mode it is the restriction to
fps, mi_mode, mc_mode, vsbmc, me and mb_size; every key outside the active
mode's set, input_fps in particular, is dropped. -/
theorem c2_option_mapper (options : List (OptKey × OptValue)) :
    (dictGet options OptKey.mi_mode = some (OptValue.str "blend") →
        options_kwargs options
          = (options.filter (fun kv => blendKeys.contains kv.1)).map
              (fun kv => (kv.1.value, kv.2))
          ∧ ∀ p ∈ options_kwargs options, p.1 ≠ "input_fps")
      ∧ (dictGet options OptKey.mi_mode = some (OptValue.str "mci") →
        options_kwargs options
          = (options.filter (fun kv => mciKeys.contains kv.1)).map
              (fun kv => (kv.1.value, kv.2))
          ∧ ∀ p ∈ options_kwargs options, p.1 ≠ "input_fps") := by
  have hfb : options.filter (fun kv => MODE_OPTS_BLEND.contains kv.1.value)
      = options.filter (fun kv => blendKeys.contains kv.1) :=
    List.filter_congr (fun kv _ => contains_blend_value kv.1)
  have hfm : options.filter (fun kv => MODE_OPTS_MCI.contains kv.1.value)
      = options.filter (fun kv => mciKeys.contains kv.1) :=
    List.filter_congr (fun kv _ => contains_mci_value kv.1)
  constructor
  · intro h
    have heq : options_kwargs options
        = (options.filter (fun kv => blendKeys.contains kv.1)).map
            (fun kv => (kv.1.value, kv.2)) := by
      rw [options_kwargs, if_pos h, hfb]
    refine ⟨heq, ?_⟩
    intro p hp
    rw [heq] at hp
    simp only [List.mem_map, List.mem_filter] at hp
    obtain ⟨⟨k, v⟩, ⟨_, hk⟩, rfl⟩ := hp
    have hkne : k ≠ OptKey.input_fps := by
      intro hh
      subst hh
      have hk2 : blendKeys.contains OptKey.input_fps = true := hk
      exact absurd hk2 (by decide)
    exact value_ne_input_fps k hkne
  · intro h
    have hnb : ¬dictGet options OptKey.mi_mode = some (OptValue.str "blend") := by
      simp [h]
    have heq : options_kwargs options
        = (options.filter (fun kv => mciKeys.contains kv.1)).map
            (fun kv => (kv.1.value, kv.2)) := by
      rw [options_kwargs, if_neg hnb, if_pos h, hfm]
    refine ⟨heq, ?_⟩
    intro p hp
    rw [heq] at hp
    simp only [List.mem_map, List.mem_filter] at hp
    obtain ⟨⟨k, v⟩, ⟨_, hk⟩, rfl⟩ := hp
    have hkne : k ≠ OptKey.input_fps := by
      intro hh
      subst hh
      have hk2 : mciKeys.contains OptKey.input_fps = true := hk
      exact absurd hk2 (by decide)
    exact value_ne_input_fps k hkne

/-- C2 witness: a blend-mode table with input_fps present maps to exactly the
fps and mi_mode entries. -/
theorem c2_option_mapper_witness :
    options_kwargs
        [(OptKey.input_fps, OptValue.rat 15), (OptKey.fps, OptValue.int 60),
          (OptKey.mi_mode, OptValue.str "blend")]
      = ([(OptKey.input_fps, OptValue.rat 15), (OptKey.fps, OptValue.int 60),
          (OptKey.mi_mode, OptValue.str "blend")].filter
            (fun kv => blendKeys.contains kv.1)).map (fun kv => (kv.1.value, kv.2)) :=
  ((c2_option_mapper
      [(OptKey.input_fps, OptValue.rat 15), (OptKey.fps, OptValue.int 60),
        (OptKey.mi_mode, OptValue.str "blend")]).1 (by decide)).1

/-- C5: for an integer-range shape, parse_choice returns the default without a
diagnostic on absent or empty input, the default with a diagnostic on input
that int() rejects, the default with a diagnostic on a parsed integer outside
the inclusive range, and the parsed integer itself (no diagnostic) when it
lies inside the range. -/
theorem c5_parse_choice_int (lo hi n : ℤ) (default : OptValue) (s : String) :
    parse_choice none (Shape.intRange lo hi) default = (default, false)
      ∧ parse_choice (some "") (Shape.intRange lo hi) default = (default, false)
      ∧ (s ≠ "" → parsePyInt s = none →
          parse_choice (some s) (Shape.intRange lo hi) default = (default, true))
      ∧ (s ≠ "" → parsePyInt s = some n → (n < lo ∨ hi < n) →
          parse_choice (some s) (Shape.intRange lo hi) default = (default, true))
      ∧ (s ≠ "" → parsePyInt s = some n → lo ≤ n → n ≤ hi →
          parse_choice (some s) (Shape.intRange lo hi) default
            = (OptValue.int n, false)) := by
  refine ⟨rfl, rfl, ?_, ?_, ?_⟩
  · intro hs hp
    simp [parse_choice, hs, hp]
  · intro hs hp hout
    have hno : ¬(lo ≤ n ∧ n ≤ hi) := by omega
    simp [parse_choice, hs, hp, hno]
  · intro hs hp hlo hhi
    simp [parse_choice, hs, hp, hlo, hhi]

/-- C5 witness: range 1..10 with input "5" parses to 5 with no diagnostic. -/
theorem c5_parse_choice_int_witness :
    parse_choice (some "5") (Shape.intRange 1 10) (OptValue.int 7)
      = (OptValue.int 5, false) :=
  (c5_parse_choice_int 1 10 5 (OptValue.int 7) "5").2.2.2.2
    (by decide) (by decide) (by decide) (by decide)

/-- C4: with an explicit output filename, the output path is the filename
joined onto the first input's directory, and when that joined path exceeds
MAX_PATH the run fails with the full-path PathTooLong diagnostic: no
truncation is attempted (the resolver yields no path at all) and the encoder
is never invoked. -/
theorem c4_explicit_name_too_long (first fn : List Char) (rest : List (List Char))
    (opts : List (OptKey × OptValue)) (r : ℕ)
    (hfn : fn ≠ [])
    (hlen : (joinL (dirnameL first) fn).length > MAX_PATH) :
    resolve_output fn first = Except.error Err.PathTooLongFile
      ∧ (make_video (first :: rest) fn opts r).error = some Err.PathTooLongFile
      ∧ (make_video (first :: rest) fn opts r).encoder = none := by
  have h1 : resolve_output fn first = Except.error Err.PathTooLongFile := by
    simp only [resolve_output]
    rw [if_neg hfn, if_pos hlen]
  refine ⟨h1, ?_, ?_⟩ <;> simp [make_video, h1]

set_option maxRecDepth 4000 in
/-- C4 witness: a 300-character filename joined under "/a" gives a 304-long
path, which is rejected with PathTooLongFile. -/
theorem c4_explicit_name_too_long_witness :
    resolve_output (List.replicate 300 'a') (chars "/a/b.png")
      = Except.error Err.PathTooLongFile :=
  (c4_explicit_name_too_long (chars "/a/b.png") (List.replicate 300 'a') [] [] 1
    (by decide) (by decide)).1

/-- C10: at the interactive prompt the entered output name is stripped; a
non-empty entry whose lowercase form does not contain ".mp4" gets ".mp4"
appended, an entry containing ".mp4" anywhere (case-insensitively) passes
through unchanged, and an empty entry stays empty. -/
theorem c10_prompt_appends_mp4 (c_in : List Char) :
    (stripL c_in = [] → normalize_output_filename c_in = [])
      ∧ (stripL c_in ≠ [] → containsL (lowerL (stripL c_in)) mp4Ext = false →
          normalize_output_filename c_in = stripL c_in ++ mp4Ext)
      ∧ (containsL (lowerL (stripL c_in)) mp4Ext = true →
          normalize_output_filename c_in = stripL c_in) := by
  refine ⟨?_, ?_, ?_⟩
  · intro h
    simp [normalize_output_filename, h]
  · intro h1 h2
    simp [normalize_output_filename, h1, h2]
  · intro h
    simp [normalize_output_filename, h]

/-- C10 witness: " x.MP4.avi " contains ".mp4" case-insensitively in the
middle, so it passes through with only the whitespace stripped. -/
theorem c10_prompt_appends_mp4_witness :
    normalize_output_filename (chars " x.MP4.avi ") = chars "x.MP4.avi" := by
  have h := (c10_prompt_appends_mp4 (chars " x.MP4.avi ")).2.2 (by decide)
  rw [h]
  decide

/-- The specification's description of the default output path: the first
input file's path with its extension replaced by ".mp4", in the same
directory. The extension is the suffix of the basename starting at its last
dot (none when the basename has no dot). Stated from the spec's words, for
comparison with resolve_output. -/
def replaceExtWithMp4 (p : List Char) : List Char :=
  let b := basenameL p
  let sufLen := (b.reverse.takeWhile (fun c => c != '.')).length
  let stem := if sufLen = b.length then b else b.take (b.length - sufLen - 1)
  joinL (dirnameL p) (stem ++ mp4Ext)

/-- C3 counterexample: when the pattern contains ".png", get_files globs a
bare star, so the first input can be a file such as /a/b.png.bak; there the
resolver appends ".mp4" to the whole name (removesuffix of ".png" does
nothing), instead of producing the extension-replaced /a/b.png.mp4 the claim
describes. -/
theorem c3_extension_replacement_counterexample :
    resolve_output [] (chars "/a/b.png.bak") = Except.ok (chars "/a/b.png.bak.mp4")
      ∧ replaceExtWithMp4 (chars "/a/b.png.bak") = chars "/a/b.png.mp4"
      ∧ chars "/a/b.png.bak.mp4" ≠ replaceExtWithMp4 (chars "/a/b.png.bak") :=
  ⟨rfl, rfl, by decide⟩

/-- C3 amended: with no output filename, make_video derives the output path
from the first input by removing a trailing ".png" (when present) and
appending ".mp4", keeping the directory unchanged — which replaces the
extension exactly when the first input ends in ".png"; when the derived path
is longer than MAX_PATH, it fails with the directory PathTooLong diagnostic
(and the encoder is never invoked) if the directory plus the fixed suffix
budget already reaches MAX_PATH, and otherwise truncates the basename so
that the resolved path fits under MAX_PATH. -/
theorem c3_default_output_path (first : List Char) (rest : List (List Char))
    (opts : List (OptKey × OptValue)) (r : ℕ) :
    (endsWithL first pngExt = true →
        (removeSuffixL first pngExt ++ mp4Ext).length ≤ MAX_PATH →
        resolve_output [] first
            = Except.ok (first.take (first.length - 4) ++ mp4Ext)
          ∧ dirnameL (first.take (first.length - 4) ++ mp4Ext) = dirnameL first)
      ∧ (endsWithL first pngExt = false →
        (removeSuffixL first pngExt ++ mp4Ext).length ≤ MAX_PATH →
        resolve_output [] first = Except.ok (first ++ mp4Ext)
          ∧ dirnameL (first ++ mp4Ext) = dirnameL first)
      ∧ ((removeSuffixL first pngExt ++ mp4Ext).length > MAX_PATH →
          (dirnameL first).length + 6 ≥ MAX_PATH →
          resolve_output [] first = Except.error Err.PathTooLongDir
            ∧ (make_video (first :: rest) [] opts r).error = some Err.PathTooLongDir
            ∧ (make_video (first :: rest) [] opts r).encoder = none)
      ∧ ((removeSuffixL first pngExt ++ mp4Ext).length > MAX_PATH →
          (dirnameL first).length + 6 < MAX_PATH →
          resolve_output [] first
            = Except.ok (joinL (dirnameL first)
                ((removeSuffixL (basenameL first) pngExt).take
                  (MAX_PATH - ((dirnameL first).length + 6)) ++ mp4Ext))
            ∧ (joinL (dirnameL first)
                ((removeSuffixL (basenameL first) pngExt).take
                  (MAX_PATH - ((dirnameL first).length + 6)) ++ mp4Ext)).length
              ≤ MAX_PATH) := by
  have hp4 : pngExt.length = 4 := by decide
  refine ⟨?_, ?_, ?_, ?_⟩
  · intro hpng hle
    obtain ⟨t, ht⟩ := (endsWithL_iff first pngExt).1 hpng
    subst ht
    have hgt : ¬(removeSuffixL (t ++ pngExt) pngExt ++ mp4Ext).length > MAX_PATH :=
      not_lt.2 hle
    have htake : (t ++ pngExt).take ((t ++ pngExt).length - 4) = t := by
      have hlen : (t ++ pngExt).length - 4 = t.length := by
        simp only [List.length_append, hp4]
        omega
      rw [hlen, List.take_left]
    constructor
    · simp only [resolve_output, abspathL]
      rw [if_pos trivial, if_neg hgt, removeSuffixL_append t pngExt (by decide), htake]
    · rw [htake, dirnameL_append_no_slash t mp4Ext (by decide),
        dirnameL_append_no_slash t pngExt (by decide)]
  · intro hnp hle
    have hgt : ¬(removeSuffixL first pngExt ++ mp4Ext).length > MAX_PATH :=
      not_lt.2 hle
    refine ⟨?_, dirnameL_append_no_slash first mp4Ext (by decide)⟩
    simp only [resolve_output, abspathL]
    rw [if_pos trivial, if_neg hgt, removeSuffixL_of_not_endsWith first pngExt hnp]
  · intro hgt hused
    have hc : (dirnameL first).length + 2 + 4 ≥ MAX_PATH := by omega
    have h1 : resolve_output [] first = Except.error Err.PathTooLongDir := by
      simp only [resolve_output, abspathL]
      rw [if_pos trivial, if_pos hgt, if_pos hc]
    refine ⟨h1, ?_, ?_⟩ <;> simp [make_video, h1]
  · intro hgt hlt
    have hc : ¬(dirnameL first).length + 2 + 4 ≥ MAX_PATH := by omega
    have h26 : (dirnameL first).length + 2 + 4 = (dirnameL first).length + 6 := by omega
    have hres : resolve_output [] first
        = Except.ok (joinL (dirnameL first)
            ((removeSuffixL (basenameL first) pngExt).take
              (MAX_PATH - ((dirnameL first).length + 6)) ++ mp4Ext)) := by
      simp only [resolve_output, abspathL]
      rw [if_pos trivial, if_pos hgt, if_neg hc, h26]
    refine ⟨hres, ?_⟩
    have hj := joinL_length_le (dirnameL first)
      ((removeSuffixL (basenameL first) pngExt).take
        (MAX_PATH - ((dirnameL first).length + 6)) ++ mp4Ext)
    have htk : ((removeSuffixL (basenameL first) pngExt).take
        (MAX_PATH - ((dirnameL first).length + 6))).length
          ≤ MAX_PATH - ((dirnameL first).length + 6) :=
      List.length_take_le _ _
    have h4 : mp4Ext.length = 4 := by decide
    simp only [List.length_append] at hj
    omega

/-- C3 amended witness: for /a/b.png the derived path is short, so resolution
succeeds with the trailing ".png" removed and ".mp4" appended. -/
theorem c3_default_output_path_witness :
    resolve_output [] (chars "/a/b.png")
      = Except.ok ((chars "/a/b.png").take ((chars "/a/b.png").length - 4) ++ mp4Ext) :=
  ((c3_default_output_path (chars "/a/b.png") [] [] 1).1 (by decide) (by decide)).1

end Ggmpeg
